import Mathlib

/-!
Verification of the hybrid-retrieval / iterative-answering core of the
Finance QA repository: the chunker (`app/services/chunking.py`), the
persistent vector store (`app/stores/vector_base.py`), the hybrid
lexical+dense index (`app/stores/hybrid_search.py`), the QA loop
(`app/services/qa_loop.py`) and its wiring to `MainStore`
(`app/stores/main_store.py`) and the API server (`app/api/server.py`).

Modelling conventions:
* Python `str` is modelled as `List Char` where character-level slicing
  matters, and as `String` where the text is only carried along.
* Python numbers that feed ranking arithmetic are modelled as `ℚ`
  (the float kernels that numpy computes — cosine similarities — and the
  third-party BM25 scorer are abstracted as score-producing functions;
  everything the repository itself computes from those scores, namely
  min-max normalisation, alpha blending, sorting and truncation, is
  embedded exactly).
* `np.argsort(-s)` is abstracted as an implementation parameter
  `argsortImpl`, constrained (`ArgsortOk`) by the contract numpy
  documents for every sort kind: a permutation of the index range along
  which the scores are non-increasing. The kind both call sites use is
  the default `quicksort` — an index-tracking introsort that numpy
  documents as not stable — so the order of equal scores is deliberately
  left open; `argsortDesc` below is the admissible stable implementation
  (`kind='stable'`), used only to instantiate witnesses, and
  `npQuicksortTiedCex` records the default kind's actual output on one
  concrete tied input.
* Fallible code returns `Except PyErr`.
-/

/-- Python runtime errors that the modelled code can raise. -/
inductive PyErr where
  | typeError
  | indexError
  deriving Repr, DecidableEq, Inhabited

/-- Argument values that appear at the modelled call sites. -/
inductive PyArg where
  | str (s : String)
  | intVal (n : Nat)
  deriving Repr, DecidableEq

/-- Python positional-argument binding for a function whose parameters
(after `self`) are `params`, none of which has a default: the call binds
iff the caller supplies exactly one positional argument per parameter,
otherwise the interpreter raises `TypeError`. -/
def bindPositional (params : List String) (args : List PyArg) :
    Except PyErr (List (String × PyArg)) :=
  if params.length = args.length then .ok (params.zip args) else .error .typeError

/-- Parameters of `MainStore.retrieve_docs` (main_store.py line 207),
`self` excluded: `(query, query_vec, top_k)`. `retrieve_chunks` (line 220)
and `retrieve_tables` (line 224) have the same parameter list. -/
def mainStoreRetrieveParams : List String := ["query", "query_vec", "top_k"]

/-- The positional arguments `QALoop.run` passes to
`self.store.retrieve_docs` (qa_loop.py line 80): the reformulated query
and `settings.top_k_docs` — two arguments. The chunk and table retrieval
calls (lines 93–94) have the same shape. -/
def qaLoopRetrieveArgs (reformulated : String) (topK : Nat) : List PyArg :=
  [.str reformulated, .intVal topK]

/-- The binding outcome of the retrieval calls made by `QALoop.run`
against the wired `MainStore` methods. -/
def qaLoopRetrieveCall (reformulated : String) (topK : Nat) :
    Except PyErr (List (String × PyArg)) :=
  bindPositional mainStoreRetrieveParams (qaLoopRetrieveArgs reformulated topK)

/-! ## Chunker (`app/services/chunking.py`) -/

/-- `TextChunk` dataclass: `text`, `start`, `end` (chunking.py lines 5–9).
The `end` field is called `stop` because `end` is a Lean keyword; offsets
are `Int` because Python's `str.find` can yield `-1`. -/
structure TextChunk where
  text : List Char
  start : Int
  stop : Int
  deriving Repr, DecidableEq, Inhabited

/-- `Chunker` configuration (chunking.py lines 19–24). The compiled
sentence regex `re.compile(sentence_regex)` is abstracted as the split
function `regexSplit` it induces on text. -/
structure Chunker where
  strategy : String
  chunk_size : Nat
  overlap : Nat
  max_chunk_size : Nat
  regexSplit : List Char → List (List Char)

/-- Python `str.strip()`: remove leading and trailing whitespace. -/
def pyStrip (s : List Char) : List Char :=
  ((s.dropWhile Char.isWhitespace).reverse.dropWhile Char.isWhitespace).reverse

/-- One step of the `while start < n` loop of `Chunker._fixed`
(chunking.py lines 37–47), fuel-indexed: each iteration emits the window
`[start, min (start+chunk_size) n)`, stops when the window reaches the
text end, and otherwise restarts at `end - overlap` (Python clamps a
negative restart to 0; `Nat` subtraction does the same). Exhausted fuel
models the non-termination the Python loop exhibits when
`overlap ≥ chunk_size`. -/
def fixedGo (cs ov : Nat) (text : List Char) (n : Nat) :
    Nat → Nat → List TextChunk
  | 0, _ => []
  | fuel + 1, start =>
    if start < n then
      let e := min (start + cs) n
      let c : TextChunk := ⟨(text.drop start).take (e - start), (start : Int), (e : Int)⟩
      if e = n then [c]
      else c :: fixedGo cs ov text n fuel (e - ov)
    else []

/-- `Chunker._fixed` (chunking.py lines 37–47). -/
def Chunker.fixed (c : Chunker) (text : List Char) : List TextChunk :=
  fixedGo c.chunk_size c.overlap text text.length (text.length + 1) 0

/-- Python `text.find(pat, start)` (used by `Chunker._sentence_group`):
the least index `i ≥ start` (a negative `start` counts from the end,
clamped at 0) with `text[i : i + pat.length] = pat` and
`i + pat.length ≤ text.length`; `-1` when there is none. -/
def strFind (text pat : List Char) (start : Int) : Int :=
  let n := text.length
  let s : Nat := if start < 0 then ((n : Int) + start).toNat else start.toNat
  match (List.range (n + 1)).find?
      (fun i => decide (s ≤ i) && decide (i + pat.length ≤ n) &&
        decide ((text.drop i).take pat.length = pat)) with
  | some i => (i : Int)
  | none => -1

/-- `Chunker._split_sentences` (chunking.py lines 49–53): regex split,
then strip each part and drop the empty ones. -/
def Chunker.splitSentences (c : Chunker) (text : List Char) : List (List Char) :=
  ((c.regexSplit text).map pyStrip).filter (fun p => ¬ p.isEmpty)

/-- Loop state of `Chunker._sentence_group` (chunking.py lines 55–78):
the sentence buffer, its tracked length, the search cursor, the current
chunk's start offset, and the chunks emitted so far. -/
structure SentenceGroupState where
  buf : List (List Char)
  bufLen : Nat
  cursor : Int
  chunkStart : Int
  out : List TextChunk

/-- One iteration of the `for s in sentences` loop of
`Chunker._sentence_group`. -/
def sentenceGroupStep (c : Chunker) (text : List Char)
    (st : SentenceGroupState) (s : List Char) : SentenceGroupState :=
  let chunkStart := if st.buf.isEmpty then strFind text s st.cursor else st.chunkStart
  let tentativeLen := st.bufLen + (if st.buf.isEmpty then 0 else 1) + s.length
  if tentativeLen > c.chunk_size ∧ ¬ st.buf.isEmpty then
    let chunkText := List.intercalate [' '] st.buf
    let chunkEnd := chunkStart + chunkText.length
    { buf := [s], bufLen := s.length, cursor := chunkEnd,
      chunkStart := strFind text s chunkEnd,
      out := st.out ++ [⟨chunkText, chunkStart, chunkEnd⟩] }
  else
    { st with
        buf := st.buf ++ [s],
        bufLen := st.bufLen + (if st.bufLen > 0 then 1 else 0) + s.length,
        chunkStart := chunkStart }

/-- `Chunker._sentence_group` (chunking.py lines 55–78): greedy sentence
grouping with offsets re-located via `text.find`, followed by the final
flush of a non-empty buffer. -/
def Chunker.sentenceGroup (c : Chunker) (text : List Char) : List TextChunk :=
  let st := (c.splitSentences text).foldl (sentenceGroupStep c text)
    { buf := [], bufLen := 0, cursor := 0, chunkStart := 0, out := [] }
  if st.buf.isEmpty then st.out
  else
    let chunkText := List.intercalate [' '] st.buf
    st.out ++ [⟨chunkText, st.chunkStart, st.chunkStart + chunkText.length⟩]

/-- `Chunker._recursive` (chunking.py lines 80–89): sentence groups, with
any group longer than `max_chunk_size` re-split by the fixed strategy and
the sub-offsets translated back into original-document coordinates. -/
def Chunker.recursive (c : Chunker) (text : List Char) : List TextChunk :=
  (c.sentenceGroup text).flatMap fun g =>
    if g.text.length ≤ c.max_chunk_size then [g]
    else (c.fixed g.text).map fun sub =>
      ⟨sub.text, g.start + sub.start, g.start + sub.stop⟩

/-- `Chunker.chunk` (chunking.py lines 26–35): dispatch on the strategy
string, falling back to the fixed strategy for any unrecognized name. -/
def Chunker.chunk (c : Chunker) (text : List Char) : List TextChunk :=
  if c.strategy = "fixed" then c.fixed text
  else if c.strategy = "sentence" then c.sentenceGroup text
  else if c.strategy = "recursive" then c.recursive text
  else c.fixed text

/-! ## Vector store (`app/stores/vector_base.py`) -/

/-- Record metadata: a Python dict, of which the verified code reads only
the `source_file` key (with `''` or `None` as defaults). -/
structure Metadata where
  source_file : Option String
  deriving Repr, DecidableEq, Inhabited

/-- `VectorRecord` dataclass (vector_base.py lines 8–13). Vector entries
are modelled as `ℚ`. -/
structure VectorRecord where
  id : String
  vector : List ℚ
  text : String
  metadata : Metadata
  deriving Repr, DecidableEq, Inhabited

/-- One metadata entry of the persisted `meta.json` list
(vector_base.py lines 56–62). -/
structure MetaEntry where
  id : String
  text : String
  metadata : Metadata
  deriving Repr, DecidableEq, Inhabited

/-- The `for i, m in enumerate(meta): vec = arr[i]` loop of
`SimpleVectorStore._load` (vector_base.py lines 72–82): row `i` of the
persisted matrix is read for metadata entry `i`, and numpy raises
`IndexError` when the matrix has no row `i`. -/
def loadGo (arr : List (List ℚ)) : Nat → List MetaEntry → Except PyErr (List VectorRecord)
  | _, [] => .ok []
  | i, m :: rest =>
    match arr.get? i with
    | none => .error .indexError
    | some vec =>
      match loadGo arr (i + 1) rest with
      | .error e => .error e
      | .ok recs => .ok (⟨m.id, vec, m.text, m.metadata⟩ :: recs)

/-- `SimpleVectorStore._load` (vector_base.py lines 72–82), applied to a
persisted (metadata list, vector matrix) pair: rebuilds the record list,
failing with the error `_load` raises when it raises one. -/
def SimpleVectorStore.loadRecords (meta : List MetaEntry) (arr : List (List ℚ)) :
    Except PyErr (List VectorRecord) :=
  loadGo arr 0 meta

/-- In-memory state of a `SimpleVectorStore`: the ordered record list
(vector_base.py line 23; the id→position map is derived from it). -/
structure SimpleVectorStore where
  vectors : List VectorRecord
  deriving Repr, DecidableEq, Inhabited

/-- Descending-lexicographic comparison on (score, index): the order of
the stable argsort kind. -/
def argsortLe (s : List ℚ) (i j : Nat) : Bool :=
  decide (s.getD j 0 < s.getD i 0 ∨ (s.getD i 0 = s.getD j 0 ∧ i ≤ j))

/-- The stable descending argsort (`np.argsort(-s, kind='stable')`): one
admissible implementation of the argsort contract, used to instantiate
witnesses. The call sites use the default kind, which does not guarantee
this tie order. -/
def argsortDesc (s : List ℚ) : List Nat :=
  (List.range s.length).mergeSort (argsortLe s)

/-- The contract numpy documents for `np.argsort(-s)` under every sort
kind: the result indexes `s` in non-increasing score order and is a
permutation of `[0, …, s.length)`. Tie order among equal scores is NOT
part of the contract (the default `quicksort` kind is documented as not
stable). -/
def ArgsortOk (argsortImpl : List ℚ → List Nat) (s : List ℚ) : Prop :=
  (argsortImpl s).Perm (List.range s.length) ∧
  List.Pairwise (fun i j => s.getD j 0 ≤ s.getD i 0) (argsortImpl s)

/-- The similarity vector `sims` of `SimpleVectorStore.search`
(vector_base.py line 91): one score per stored record. -/
def SimpleVectorStore.searchSims (sim : List ℚ → List ℚ → ℚ) (store : SimpleVectorStore)
    (queryVec : List ℚ) : List ℚ :=
  store.vectors.map fun r => sim queryVec r.vector

/-- The selected index list `idxs = np.argsort(-sims)[:top_k]`
(vector_base.py line 92), over the argsort implementation `argsortImpl`
(numpy's default-kind argsort, abstracted per `ArgsortOk`). -/
def SimpleVectorStore.searchIdxs (argsortImpl : List ℚ → List Nat)
    (sim : List ℚ → List ℚ → ℚ) (store : SimpleVectorStore)
    (queryVec : List ℚ) (topK : Nat) : List Nat :=
  (argsortImpl (store.searchSims sim queryVec)).take topK

/-- `SimpleVectorStore.search` (vector_base.py lines 84–93). The numpy
float kernel — normalised query · normalised rows (`mnorm @ q`) — is
abstracted as the similarity function `sim` and `np.argsort` as
`argsortImpl`; the guard on an empty store, the `top_k` truncation and
the (record, score) pairing are embedded exactly. -/
def SimpleVectorStore.search (argsortImpl : List ℚ → List Nat)
    (sim : List ℚ → List ℚ → ℚ) (store : SimpleVectorStore)
    (queryVec : List ℚ) (topK : Nat) : List (VectorRecord × ℚ) :=
  if store.vectors.isEmpty then []
  else
    (store.searchIdxs argsortImpl sim queryVec topK).map fun i =>
      (store.vectors.getD i default, (store.searchSims sim queryVec).getD i 0)

/-! ## Hybrid index (`app/stores/hybrid_search.py`) -/

/-- A `\w` word character, for ASCII text. -/
def isWordChar (c : Char) : Bool := c.isAlphanum || c == '_'

/-- Maximal runs of word characters, i.e. `re.findall(r"\w+", text)`. -/
def wordRunsGo : List Char → List Char → List (List Char)
  | [], acc => if acc.isEmpty then [] else [acc.reverse]
  | c :: rest, acc =>
    if isWordChar c then wordRunsGo rest (c :: acc)
    else if acc.isEmpty then wordRunsGo rest []
    else acc.reverse :: wordRunsGo rest []

/-- `HybridIndex._tokenize` (hybrid_search.py lines 12–14): lowercased
word tokens. -/
def hybridTokenize (text : List Char) : List (List Char) :=
  (wordRunsGo text []).map (·.map Char.toLower)

/-- `HybridIndex` state (hybrid_search.py lines 7–10): the record list
and the optional BM25 scorer. The third-party `BM25Okapi` object is
abstracted as the score function it implements (query tokens ↦ one score
per corpus document); `none` models `self.bm25 = None`. -/
structure HybridIndex where
  records : List VectorRecord
  bm25 : Option (List (List Char) → List ℚ)

/-- `HybridIndex.build` (hybrid_search.py lines 16–31): records with no
word tokens (or empty text) are excluded from the BM25 corpus; when the
corpus is empty, or the `BM25Okapi` constructor — modelled as `bm25Ctor`,
with `.error` standing for the `ZeroDivisionError` the source catches —
fails, lexical scoring is disabled (`bm25 := none`). -/
def HybridIndex.build
    (bm25Ctor : List (List (List Char)) → Except Unit (List (List Char) → List ℚ))
    (records : List VectorRecord) : HybridIndex :=
  let corpus := records.filterMap fun r =>
    let toks := if r.text.isEmpty then [] else hybridTokenize r.text.toList
    if toks.isEmpty then none else some toks
  { records := records,
    bm25 :=
      if corpus.isEmpty then none
      else match bm25Ctor corpus with
        | .ok f => some f
        | .error _ => none }

/-- Maximum of a score list (`np.max`; nonempty in all uses). -/
def listMax : List ℚ → ℚ
  | [] => 0
  | x :: xs => xs.foldl max x

/-- Minimum of a score list (`np.min`; nonempty in all uses). -/
def listMin : List ℚ → ℚ
  | [] => 0
  | x :: xs => xs.foldl min x

/-- `np.ptp`: max minus min. -/
def ptp (s : List ℚ) : ℚ := listMax s - listMin s

/-- The `1e-9` guard both normalisations add to the divisor. -/
def npEps : ℚ := 1 / 1000000000

/-- Min-max normalisation `(s - s.min()) / (rng + 1e-9)` shared by
`lexical_scores` and `dense_scores`. -/
def minmaxNorm (s : List ℚ) : List ℚ :=
  s.map fun x => (x - listMin s) / (ptp s + npEps)

/-- `HybridIndex.lexical_scores` (hybrid_search.py lines 33–43): empty
when there are no records or BM25 is disabled; otherwise the BM25 scores
of the tokenized query, min-max normalised only when nonempty with a
strictly positive range, and returned raw otherwise. -/
def HybridIndex.lexicalScores (idx : HybridIndex) (query : List Char) : List ℚ :=
  if idx.records.isEmpty then []
  else match idx.bm25 with
    | none => []
    | some f =>
      let toks := hybridTokenize query
      let scores := f toks
      if ¬ scores.isEmpty ∧ 0 < ptp scores then minmaxNorm scores else scores

/-- `HybridIndex.dense_scores` (hybrid_search.py lines 45–55): cosine
similarities of the query vector against every record — the float kernel
abstracted as `sim`, as in `SimpleVectorStore.search` — min-max
normalised when their range is strictly positive. -/
def HybridIndex.denseScores (sim : List ℚ → List ℚ → ℚ) (idx : HybridIndex)
    (queryVec : List ℚ) : List ℚ :=
  if idx.records.isEmpty then []
  else
    let sims := idx.records.map fun r => sim queryVec r.vector
    if 0 < ptp sims then minmaxNorm sims else sims

/-- The fused score vector of `HybridIndex.hybrid_search`
(hybrid_search.py lines 60–66): `alpha * dense + (1 - alpha) * lexical`,
falling back to the dense scores alone when the lexical vector's shape
differs or it is empty. -/
def HybridIndex.hybridScores (sim : List ℚ → List ℚ → ℚ) (idx : HybridIndex)
    (query : List Char) (queryVec : List ℚ) (alpha : ℚ) : List ℚ :=
  let ls := idx.lexicalScores query
  let ds := idx.denseScores sim queryVec
  if ls.length ≠ ds.length ∨ ls.isEmpty then ds
  else List.zipWith (fun d l => alpha * d + (1 - alpha) * l) ds ls

/-- The selected index list `idxs = np.argsort(-score)[:top_k]`
(hybrid_search.py line 67), over the abstracted argsort implementation. -/
def HybridIndex.hybridIdxs (argsortImpl : List ℚ → List Nat)
    (sim : List ℚ → List ℚ → ℚ) (idx : HybridIndex)
    (query : List Char) (queryVec : List ℚ) (alpha : ℚ) (topK : Nat) : List Nat :=
  (argsortImpl (idx.hybridScores sim query queryVec alpha)).take topK

/-- The (record, score) selection of `hybrid_search`
(hybrid_search.py line 68). -/
def HybridIndex.hybridSearch (argsortImpl : List ℚ → List Nat)
    (sim : List ℚ → List ℚ → ℚ) (idx : HybridIndex)
    (query : List Char) (queryVec : List ℚ) (alpha : ℚ) (topK : Nat) :
    List (VectorRecord × ℚ) :=
  if idx.records.isEmpty then []
  else
    (idx.hybridIdxs argsortImpl sim query queryVec alpha topK).map fun i =>
      (idx.records.getD i default, (idx.hybridScores sim query queryVec alpha).getD i 0)

/-- Pure dense ranking, written from the spec's words ("subsequent
`hybrid_search` calls match pure dense ranking exactly"): select `top_k`
records of the index by descending dense score (the same argsort the
code would run), empty on an empty index. Used as the reference side of
the C5 refinement. -/
def HybridIndex.denseOnlyRanking (argsortImpl : List ℚ → List Nat)
    (sim : List ℚ → List ℚ → ℚ) (idx : HybridIndex)
    (queryVec : List ℚ) (topK : Nat) : List (VectorRecord × ℚ) :=
  if idx.records.isEmpty then []
  else
    let ds := idx.denseScores sim queryVec
    let idxs := (argsortImpl ds).take topK
    idxs.map fun i => (idx.records.getD i default, ds.getD i 0)

/-! ## QA loop (`app/services/qa_loop.py`) -/

/-- A packed retrieval result as produced by `MainStore._pack`
(main_store.py lines 228–234): `{id, text, metadata, score}`. -/
structure Packed where
  id : String
  text : String
  metadata : Metadata
  score : ℚ
  deriving Repr, DecidableEq, Inhabited

/-- The chosen-docs filter of `QALoop.run` (qa_loop.py lines 95–98) and
`run_with_events` (lines 175–177): applied only when the selection is
non-empty (`if chosen_ids:`); it keeps the items whose reconstructed
document id `'doc-' + metadata.get('source_file', '')` is in the
selection. -/
def filterByChosen (chosen : List String) (items : List Packed) : List Packed :=
  if chosen.isEmpty then items
  else items.filter fun c => chosen.contains ("doc-" ++ c.metadata.source_file.getD "")

/-- An unrecoverable model-call failure: the exception `chat_json`
raises, which `QALoop._chat` re-raises (qa_loop.py lines 43–48). -/
structure ChatErr where
  msg : String
  deriving Repr, DecidableEq, Inhabited

/-- Response of the reformulate call, as read by the loop:
`reform_json.get('reformulated', current_query)`. -/
structure ReformResp where
  reformulated : Option String
  deriving Repr, DecidableEq, Inhabited

/-- Response of the select-docs call: `sel_json.get('chosen_doc_ids', [])`. -/
structure SelectResp where
  chosen_doc_ids : Option (List String)
  deriving Repr, DecidableEq, Inhabited

/-- Response of the filter-chunks call: `relevant_chunk_ids`,
`answerable` and `missing_info_query`, each read with a `.get` default. -/
structure FilterResp where
  relevant_chunk_ids : Option (List String)
  answerable : Option Bool
  missing_info_query : Option String
  deriving Repr, DecidableEq, Inhabited

/-- Response of the final-answer call (`{"answer", "reasoning"}`),
carried opaquely into the trace. -/
structure FinalResp where
  answer : String
  reasoning : String
  deriving Repr, DecidableEq, Inhabited

/-- Environment of one `QALoop` run: the four staged model calls —
oracles over the loop index and the query they are prompted with, each
able to fail like `chat_json` — and the three store retrieval calls as
the loop invokes them (query and top-k), modelled as oracles returning
packed candidate lists. -/
structure QAEnv where
  reformulate : Nat → String → Except ChatErr ReformResp
  selectDocs : Nat → String → Except ChatErr SelectResp
  filterChunks : Nat → String → Except ChatErr FilterResp
  finalAnswer : Nat → String → Except ChatErr FinalResp
  retrieveDocs : String → Nat → List Packed
  retrieveChunks : String → Nat → List Packed
  retrieveTables : String → Nat → List Packed

/-- The settings fields `QALoop.run` reads (config.py lines 39–42). -/
structure LoopSettings where
  iterative_max_loops : Nat
  top_k_docs : Nat
  top_k_chunks : Nat
  top_k_tables : Nat

/-- One trace step (qa_loop.py: the dicts appended to `trace['steps']`),
tagged by type and carrying the loop index and that step's output. -/
inductive TraceStep where
  | reformulate (loop : Nat) (input output : String)
  | retrieveDocs (loop : Nat) (candidates : List Packed)
  | selectDocs (loop : Nat) (selection : List String)
  | retrieveChunks (loop : Nat) (chunks tables : List Packed)
  | filterChunks (loop : Nat) (selected : List String) (answerable : Bool)
  | finalAnswer (loop : Nat) (result : FinalResp)
  deriving Repr, DecidableEq

/-- The trace a run builds (qa_loop.py lines 62–67): its id (the
generated uuid, modelled as a parameter), the user query, the ordered
steps and the final answer once set. `created_at` is wall-clock time and
is not modelled. -/
structure Trace where
  id : String
  user_query : String
  steps : List TraceStep
  final_answer : Option FinalResp
  deriving Repr, DecidableEq

/-- Insert-or-overwrite into `accumulated_chunks` keyed by id. -/
def accInsert (acc : List (String × Packed)) (c : Packed) : List (String × Packed) :=
  if acc.any (fun p => p.1 == c.id) then
    acc.map fun p => if p.1 == c.id then (c.id, c) else p
  else acc ++ [(c.id, c)]

/-- The body of rounds `loopIdx, loopIdx+1, …` of the
`for loop_idx in range(settings.iterative_max_loops)` loop of
`QALoop.run` (qa_loop.py lines 71–126), with `fuel` the number of loop
indices left (`fuel + loopIdx = iterative_max_loops` at every call; the
fuel-0 base case is Python's fall-through when the range is exhausted,
reachable only when `iterative_max_loops = 0`). A failing model call
short-circuits the run with its error, as the uncaught exception does. -/
def runRounds (env : QAEnv) (s : LoopSettings) (userQuery : String) :
    Nat → Nat → String → List (String × Packed) → List TraceStep →
    Except ChatErr (List TraceStep × Option FinalResp)
  | 0, _, _, _, steps => .ok (steps, none)
  | fuel + 1, loopIdx, currentQuery, acc, steps =>
    match env.reformulate loopIdx currentQuery with
    | .error e => .error e
    | .ok reformJson =>
      let reformulated := reformJson.reformulated.getD currentQuery
      let steps := steps ++ [.reformulate loopIdx currentQuery reformulated]
      let docs := env.retrieveDocs reformulated s.top_k_docs
      let steps := steps ++ [.retrieveDocs loopIdx docs]
      match env.selectDocs loopIdx reformulated with
      | .error e => .error e
      | .ok selJson =>
        let chosen := selJson.chosen_doc_ids.getD []
        let steps := steps ++ [.selectDocs loopIdx chosen]
        let chunks := filterByChosen chosen (env.retrieveChunks reformulated s.top_k_chunks)
        let tables := filterByChosen chosen (env.retrieveTables reformulated s.top_k_tables)
        let steps := steps ++ [.retrieveChunks loopIdx chunks tables]
        let limited := chunks.take 8 ++ tables.take 4
        match env.filterChunks loopIdx reformulated with
        | .error e => .error e
        | .ok filterJson =>
          let rel := filterJson.relevant_chunk_ids.getD []
          let acc := limited.foldl
            (fun m c => if rel.contains c.id then accInsert m c else m) acc
          let answerable := filterJson.answerable.getD false
          let steps := steps ++ [.filterChunks loopIdx rel answerable]
          if answerable ∨ loopIdx = s.iterative_max_loops - 1 then
            match env.finalAnswer loopIdx userQuery with
            | .error e => .error e
            | .ok finalJson =>
              .ok (steps ++ [.finalAnswer loopIdx finalJson], some finalJson)
          else
            runRounds env s userQuery fuel (loopIdx + 1)
              (filterJson.missing_info_query.getD currentQuery) acc steps

/-- `QALoop.run` (qa_loop.py lines 61–128): builds the trace over up to
`iterative_max_loops` rounds; a raising model call aborts the run with
that error. -/
def QALoop.run (env : QAEnv) (s : LoopSettings) (traceId userQuery : String) :
    Except ChatErr Trace :=
  match runRounds env s userQuery s.iterative_max_loops 0 userQuery [] [] with
  | .error e => .error e
  | .ok (steps, fa) =>
    .ok { id := traceId, user_query := userQuery, steps := steps, final_answer := fa }

/-- Externally observable effects of `run_with_events` and of the
`/question` endpoint: logger events and the trace-file write. -/
inductive LoopEffect where
  | progressEvt (stage : String) (loop : Nat)
  | infoEvt (msg : String)
  | writeTrace (traceId : String)
  | doneEvt
  deriving Repr, DecidableEq

/-- The loop of `QALoop.run_with_events` (qa_loop.py lines 144–203),
threading the emitted logger events; a failing model call aborts with the
error and the events emitted so far (the uncaught exception propagates
past the persistence code). -/
def runWERounds (env : QAEnv) (s : LoopSettings) (userQuery : String) :
    Nat → Nat → String → List (String × Packed) → List TraceStep → List LoopEffect →
    (Except ChatErr (List TraceStep × Option FinalResp)) × List LoopEffect
  | 0, _, _, _, steps, effs => (.ok (steps, none), effs)
  | fuel + 1, loopIdx, currentQuery, acc, steps, effs =>
    let effs := effs ++ [.progressEvt "reformulate" loopIdx]
    match env.reformulate loopIdx currentQuery with
    | .error e => (.error e, effs)
    | .ok reformJson =>
      let reformulated := reformJson.reformulated.getD currentQuery
      let steps := steps ++ [.reformulate loopIdx currentQuery reformulated]
      let effs := effs ++ [.progressEvt "retrieve_docs" loopIdx]
      let docs := env.retrieveDocs reformulated s.top_k_docs
      let steps := steps ++ [.retrieveDocs loopIdx docs]
      match env.selectDocs loopIdx reformulated with
      | .error e => (.error e, effs)
      | .ok selJson =>
        let chosen := selJson.chosen_doc_ids.getD []
        let steps := steps ++ [.selectDocs loopIdx chosen]
        let effs := effs ++ [.progressEvt "retrieve_chunks" loopIdx]
        let chunks := filterByChosen chosen (env.retrieveChunks reformulated s.top_k_chunks)
        let tables := filterByChosen chosen (env.retrieveTables reformulated s.top_k_tables)
        let steps := steps ++ [.retrieveChunks loopIdx chunks tables]
        let limited := chunks.take 8 ++ tables.take 4
        let effs := effs ++ [.progressEvt "filter_chunks" loopIdx]
        match env.filterChunks loopIdx reformulated with
        | .error e => (.error e, effs)
        | .ok filterJson =>
          let rel := filterJson.relevant_chunk_ids.getD []
          let acc := limited.foldl
            (fun m c => if rel.contains c.id then accInsert m c else m) acc
          let answerable := filterJson.answerable.getD false
          let steps := steps ++ [.filterChunks loopIdx rel answerable]
          if answerable ∨ loopIdx = s.iterative_max_loops - 1 then
            let effs := effs ++ [.progressEvt "final_answer" loopIdx]
            match env.finalAnswer loopIdx userQuery with
            | .error e => (.error e, effs)
            | .ok finalJson =>
              (.ok (steps ++ [.finalAnswer loopIdx finalJson], some finalJson), effs)
          else
            runWERounds env s userQuery fuel (loopIdx + 1)
              (filterJson.missing_info_query.getD currentQuery) acc steps effs

/-- `QALoop.run_with_events` (qa_loop.py lines 131–210): the loop with
progress events; only after the loop completes does it write the trace
file, log `trace_saved` and emit the terminal event, returning the trace
id. On a model-call failure the exception propagates with only the
events emitted so far — no write. -/
def QALoop.runWithEvents (env : QAEnv) (s : LoopSettings) (traceId userQuery : String) :
    Except ChatErr String × List LoopEffect :=
  match runWERounds env s userQuery s.iterative_max_loops 0 userQuery [] []
      [.infoEvt "loop_start"] with
  | (.error e, effs) => (.error e, effs)
  | (.ok _, effs) =>
    (.ok traceId, effs ++ [.writeTrace traceId, .infoEvt "trace_saved", .doneEvt])

/-- The `/question` endpoint `ask` (server.py lines 99–105): run the
loop synchronously, then — only when it returned — write the trace file.
A raising run propagates out of the endpoint with nothing written. -/
def askEndpoint (env : QAEnv) (s : LoopSettings) (traceId userQuery : String) :
    Except ChatErr Trace × List LoopEffect :=
  match QALoop.run env s traceId userQuery with
  | .error e => (.error e, [])
  | .ok t => (.ok t, [.writeTrace t.id])

/-- Predicate: no trace-file write among the effects. -/
def noWrite (effs : List LoopEffect) : Bool :=
  effs.all fun e => match e with
    | .writeTrace _ => false
    | _ => true

/-- Count of `final_answer` steps in a step list. -/
def countFinal (steps : List TraceStep) : Nat :=
  steps.countP fun st => match st with
    | .finalAnswer _ _ => true
    | _ => false

/-- Count of `reformulate` steps in a step list — one per executed
round, so it counts the rounds a run performed. -/
def countReform (steps : List TraceStep) : Nat :=
  steps.countP fun st => match st with
    | .reformulate _ _ _ => true
    | _ => false

/-- An environment whose four model-call oracles never raise. -/
def QAEnv.total (env : QAEnv) : Prop :=
  (∀ i q, (env.reformulate i q).isOk) ∧ (∀ i q, (env.selectDocs i q).isOk) ∧
  (∀ i q, (env.filterChunks i q).isOk) ∧ (∀ i q, (env.finalAnswer i q).isOk)

/-! ## Supporting definitions for the statements -/

/-- Relation between consecutive chunks of the fixed strategy: the
earlier chunk is a full window (`end = start + chunk_size`) and the next
window starts `chunk_size - overlap` characters later. -/
def fixedRel (cs ov : Nat) (a b : TextChunk) : Prop :=
  a.stop = a.start + (cs : Int) ∧ b.start = a.start + ((cs : Int) - (ov : Int))

/-- Strict ranking order underlying the selections: index `i` precedes
index `j` when its score is strictly higher, or the scores are equal and
`i` was inserted earlier. The original C4 claim asserts this order on
the selected indices. -/
def rankRel (s : List ℚ) (i j : Nat) : Prop :=
  s.getD j 0 < s.getD i 0 ∨ (s.getD i 0 = s.getD j 0 ∧ i < j)

instance rankRelDecidable (s : List ℚ) (i j : Nat) : Decidable (rankRel s i j) :=
  inferInstanceAs (Decidable (_ ∨ _))

instance argsortOkDecidable (argsortImpl : List ℚ → List Nat) (s : List ℚ) :
    Decidable (ArgsortOk argsortImpl s) :=
  inferInstanceAs (Decidable (_ ∧ _))

/-- A store of 17 identical records: all cosine similarities are tied,
and 17 exceeds the `SMALL_QUICKSORT = 15` cutoff below which numpy's
default argsort kind insertion-sorts (stably). -/
def tiedStore17 : SimpleVectorStore :=
  ⟨List.replicate 17 ⟨"r", [1], "t", ⟨none⟩⟩⟩

/-- What numpy's default argsort kind (`quicksort`, npysort
`aquicksort`) returns on 17 equal keys, traced through the C source:
the median-of-3 comparisons are strict and do nothing on ties, the
unconditional pivot move swaps positions 8 and 15, the partition scan
then swaps positions (1,14), (2,13), (3,12), (4,11), (5,10), (6,9),
(7,8), the pivot is finally swapped into position 8, and the two
remaining 8-element halves are insertion-sorted, which moves nothing on
equal keys. Not the insertion order `[0, …, 16]`. -/
def npQuicksortTiedPerm : List Nat :=
  [0, 14, 13, 12, 11, 10, 9, 15, 8, 6, 5, 4, 3, 2, 1, 7, 16]

/-- An argsort implementation exhibiting the default kind's behaviour:
it returns the traced `aquicksort` output on the all-tied 17-score
vector and the stable order elsewhere. -/
def npQuicksortTiedCex (s : List ℚ) : List Nat :=
  if s = List.replicate 17 0 then npQuicksortTiedPerm else argsortDesc s

/-- Two-record corpus whose texts both tokenize to `["a"]`: the corpus
on which the real `BM25Okapi` gives both documents the same negative
score (one token, present in every document, hence a negative idf that
`rank_bm25` replaces by `epsilon * average_idf < 0`). -/
def cexRecords : List VectorRecord :=
  [⟨"r1", [1], "a", ⟨none⟩⟩, ⟨"r2", [1], "a", ⟨none⟩⟩]

/-- The BM25 scorer that corpus yields, to within the concrete constant:
every query receives the constant score vector `[-2/5, -2/5]`
(`idf = ln 0.2 < 0`, replaced by `0.25 * ln 0.2 ≈ -0.402`; the exact
value is irrelevant — only that it is equal, negative and nonzero). -/
def cexCtor : List (List (List Char)) → Except Unit (List (List Char) → List ℚ) :=
  fun _ => .ok fun _ => [-(2:ℚ)/5, -(2:ℚ)/5]

/-- The settings the deployed configuration wires into the loop
(config.py lines 39–42): `iterative_max_loops = 4`, `top_k_docs = 6`,
`top_k_chunks = 12`, `top_k_tables = 6`. -/
def defaultLoopSettings : LoopSettings :=
  { iterative_max_loops := 4, top_k_docs := 6, top_k_chunks := 12, top_k_tables := 6 }

/-- An environment whose model calls always succeed with fixed
responses and whose retrievals return nothing. -/
def okEnv : QAEnv where
  reformulate := fun _ _ => .ok ⟨some "q"⟩
  selectDocs := fun _ _ => .ok ⟨some []⟩
  filterChunks := fun _ _ => .ok ⟨some [], some true, none⟩
  finalAnswer := fun _ _ => .ok ⟨"42", "because"⟩
  retrieveDocs := fun _ _ => []
  retrieveChunks := fun _ _ => []
  retrieveTables := fun _ _ => []

/-- An environment whose very first model call raises. -/
def failEnv : QAEnv where
  reformulate := fun _ _ => .error ⟨"boom"⟩
  selectDocs := fun _ _ => .ok ⟨some []⟩
  filterChunks := fun _ _ => .ok ⟨some [], some true, none⟩
  finalAnswer := fun _ _ => .ok ⟨"42", "because"⟩
  retrieveDocs := fun _ _ => []
  retrieveChunks := fun _ _ => []
  retrieveTables := fun _ _ => []

/-! ## Theorems -/

theorem fixedGo_head (cs ov : Nat) (text : List Char) (n fuel start : Nat)
    (hs : start < n) (hf : 0 < fuel) :
    ∃ rest, fixedGo cs ov text n fuel start =
      ⟨(text.drop start).take (min (start + cs) n - start), (start : Int),
        (min (start + cs) n : Int)⟩ :: rest := by
  obtain ⟨f, rfl⟩ : ∃ f, fuel = f + 1 := ⟨fuel - 1, by omega⟩
  by_cases he : min (start + cs) n = n
  · exact ⟨[], by simp [fixedGo, hs, he]; omega⟩
  · exact ⟨fixedGo cs ov text n f (min (start + cs) n - ov), by simp [fixedGo, hs, he]⟩

theorem fixedGo_chain (cs ov : Nat) (text : List Char) (n : Nat) (hov : ov < cs) :
    ∀ fuel start, n - start < fuel →
      List.Chain' (fixedRel cs ov) (fixedGo cs ov text n fuel start) := by
  intro fuel
  induction fuel with
  | zero => intro start h; omega
  | succ f ih =>
    intro start h
    by_cases hs : start < n
    · by_cases he : min (start + cs) n = n
      · simp [fixedGo, hs, he]
      · have hmin : min (start + cs) n = start + cs := by omega
        have hlt : start + cs < n := by omega
        have hs' : start + cs - ov < n := by omega
        have hf' : 0 < f := by omega
        obtain ⟨rest, hrest⟩ := fixedGo_head cs ov text n f (start + cs - ov) hs' hf'
        simp only [fixedGo, if_pos hs, if_neg he]
        rw [List.chain'_cons']
        constructor
        · intro b hb
          rw [hmin, hrest] at hb
          simp only [List.head?_cons, Option.mem_def, Option.some.injEq] at hb
          subst hb
          refine ⟨?_, ?_⟩
          · simp only [hmin]; push_cast; omega
          · simp only; omega
        · rw [hmin]; exact ih (start + cs - ov) (by omega)
    · simp [fixedGo, hs]

theorem fixedGo_last (cs ov : Nat) (text : List Char) (n : Nat) (hov : ov < cs) :
    ∀ fuel start a, n - start < fuel →
      (fixedGo cs ov text n fuel start).getLast? = some a → a.stop = (n : Int) := by
  intro fuel
  induction fuel with
  | zero => intro start a h; omega
  | succ f ih =>
    intro start a h hlast
    by_cases hs : start < n
    · by_cases he : min (start + cs) n = n
      · simp [fixedGo, hs, he] at hlast
        subst hlast
        simp [he]
      · have hmin : min (start + cs) n = start + cs := by omega
        have hlt : start + cs < n := by omega
        have hs' : start + cs - ov < n := by omega
        have hf' : 0 < f := by omega
        obtain ⟨rest, hrest⟩ := fixedGo_head cs ov text n f (start + cs - ov) hs' hf'
        simp only [fixedGo, if_pos hs, if_neg he] at hlast
        rw [hmin] at hlast
        rw [hrest] at hlast
        rw [List.getLast?_cons_cons] at hlast
        exact ih (start + cs - ov) a (by omega) (by rw [hrest]; exact hlast)
    · simp [fixedGo, hs] at hlast

/-- C9: under the fixed strategy, chunking slides a window of length
`chunk_size` with step `chunk_size - overlap` (every non-final chunk is a
full window and the next chunk starts `chunk_size - overlap` later), the
last chunk may be short but ends exactly at the text end, chunking empty
text yields the empty sequence, and the concrete scenario
`chunk("AAAAAAAAAA", fixed, chunk_size=4, overlap=1)` yields exactly the
chunks at offsets [0,4), [3,7), [6,10). -/
theorem c9_fixed_strategy (c : Chunker) (text : List Char)
    (hov : c.overlap < c.chunk_size) :
    List.Chain' (fixedRel c.chunk_size c.overlap) (c.fixed text) ∧
    (∀ a, (c.fixed text).getLast? = some a → a.stop = (text.length : Int)) ∧
    (text ≠ [] → c.fixed text ≠ []) ∧
    c.fixed [] = [] ∧
    (Chunker.mk "fixed" 4 1 1200 (fun _ => [])).chunk "AAAAAAAAAA".toList =
      [⟨"AAAA".toList, 0, 4⟩, ⟨"AAAA".toList, 3, 7⟩, ⟨"AAAA".toList, 6, 10⟩] := by
  refine ⟨?_, ?_, ?_, ?_, by decide⟩
  · exact fixedGo_chain c.chunk_size c.overlap text text.length hov
      (text.length + 1) 0 (by omega)
  · exact fun a => fixedGo_last c.chunk_size c.overlap text text.length hov
      (text.length + 1) 0 a (by omega)
  · intro hne
    have hl : 0 < text.length := List.length_pos.mpr hne
    obtain ⟨rest, hrest⟩ := fixedGo_head c.chunk_size c.overlap text text.length
      (text.length + 1) 0 hl (by omega)
    rw [Chunker.fixed, hrest]
    simp
  · simp [Chunker.fixed, fixedGo]

theorem c9_witness :
    ((1:Nat) < 4) ∧
    (Chunker.mk "fixed" 4 1 1200 (fun _ => [])).chunk "AAAAAAAAAA".toList =
      [⟨"AAAA".toList, 0, 4⟩, ⟨"AAAA".toList, 3, 7⟩, ⟨"AAAA".toList, 6, 10⟩] :=
  ⟨by decide, (c9_fixed_strategy (Chunker.mk "fixed" 4 1 1200 (fun _ => []))
    "AAAAAAAAAA".toList (by decide)).2.2.2.2⟩

/-- C10: for every strategy string other than "fixed", "sentence" or
"recursive", `Chunker.chunk` does not raise — it returns exactly what the
fixed strategy returns on that text, silently ignoring the unrecognized
name. -/
theorem c10_unknown_strategy_falls_back (c : Chunker) (text : List Char)
    (h1 : c.strategy ≠ "fixed") (h2 : c.strategy ≠ "sentence")
    (h3 : c.strategy ≠ "recursive") :
    c.chunk text = { c with strategy := "fixed" }.chunk text := by
  simp [Chunker.chunk, Chunker.fixed, h1, h2, h3]

theorem c10_witness :
    ("fxied" ≠ "fixed") ∧
    (Chunker.mk "fxied" 4 1 1200 (fun _ => [])).chunk "ABCDE".toList =
      (Chunker.mk "fixed" 4 1 1200 (fun _ => [])).chunk "ABCDE".toList :=
  ⟨by decide, c10_unknown_strategy_falls_back
    (Chunker.mk "fxied" 4 1 1200 (fun _ => [])) "ABCDE".toList
    (by decide) (by decide) (by decide)⟩

/-- C1 (code bug): the retrieval calls of `QALoop.run` pass two
positional arguments to `MainStore.retrieve_docs` / `retrieve_chunks` /
`retrieve_tables`, which require three (`query, query_vec, top_k`), so on
the wired store every round's retrieval raises `TypeError` instead of
returning a candidate list, for every reformulated query and every
configured top-k. -/
theorem c1_retrieval_calls_raise_typeerror (reformulated : String)
    (topKDocs topKChunks topKTables : Nat) :
    qaLoopRetrieveCall reformulated topKDocs = .error .typeError ∧
    qaLoopRetrieveCall reformulated topKChunks = .error .typeError ∧
    qaLoopRetrieveCall reformulated topKTables = .error .typeError :=
  ⟨rfl, rfl, rfl⟩

/-- C7: in the chunk/table retrieval step of every QALoop round, an
empty document selection applies no filter — the candidate lists passed
on are exactly the unfiltered retrieval results — and a filter (keeping
the items whose reconstructed `doc-` id is selected) is applied only when
the selection is non-empty. -/
theorem c7_empty_selection_no_filter (chosen : List String)
    (chunks tables : List Packed) :
    (chosen = [] → filterByChosen chosen chunks = chunks ∧
      filterByChosen chosen tables = tables) ∧
    (chosen ≠ [] → filterByChosen chosen chunks =
      chunks.filter fun c => chosen.contains ("doc-" ++ c.metadata.source_file.getD "")) := by
  constructor
  · rintro rfl
    exact ⟨rfl, rfl⟩
  · intro h
    rw [filterByChosen, if_neg (by simpa using h)]

theorem c7_witness :
    (([] : List String) = []) ∧
    filterByChosen [] [Packed.mk "c1" "t" ⟨some "f.pdf"⟩ 1] =
      [Packed.mk "c1" "t" ⟨some "f.pdf"⟩ 1] :=
  ⟨rfl, ((c7_empty_selection_no_filter [] [Packed.mk "c1" "t" ⟨some "f.pdf"⟩ 1] []).1 rfl).1⟩

theorem loadGo_spec (arr : List (List ℚ)) :
    ∀ (meta : List MetaEntry) (i : Nat),
      ((loadGo arr i meta).isOk ↔ (meta = [] ∨ i + meta.length ≤ arr.length)) ∧
      (∀ recs, loadGo arr i meta = .ok recs → recs.length = meta.length) := by
  intro meta
  induction meta with
  | nil =>
    intro i
    constructor
    · simp [loadGo, Except.isOk, Except.toBool]
    · intro recs h
      simp only [loadGo, Except.ok.injEq] at h
      subst h
      rfl
  | cons m rest ih =>
    intro i
    by_cases hi : i < arr.length
    · obtain ⟨v, harr⟩ : ∃ v, arr.get? i = some v :=
        ⟨arr.get ⟨i, hi⟩, List.get?_eq_get hi⟩
      cases hgo : loadGo arr (i + 1) rest with
      | error e =>
        have hrest := (ih (i + 1)).1
        rw [hgo] at hrest
        simp only [Except.isOk, Except.toBool, Bool.false_eq_true, false_iff] at hrest
        push_neg at hrest
        constructor
        · simp only [loadGo, harr, hgo, Except.isOk, Except.toBool, Bool.false_eq_true,
            false_iff]
          push_neg
          refine ⟨by simp, ?_⟩
          have h2 := hrest.2
          simp only [List.length_cons]
          omega
        · intro recs h
          simp only [loadGo, harr, hgo] at h
          exact (Except.noConfusion h)
      | ok recs0 =>
        have hrest := (ih (i + 1)).1
        rw [hgo] at hrest
        simp only [Except.isOk, Except.toBool, true_iff] at hrest
        have hlen := (ih (i + 1)).2 recs0 hgo
        constructor
        · simp only [loadGo, harr, hgo, Except.isOk, Except.toBool, true_iff,
            List.length_cons]
          rcases hrest with h | h
          · subst h
            simp at hlen ⊢
            omega
          · right; omega
        · intro recs h
          simp only [loadGo, harr, hgo, Except.ok.injEq] at h
          subst h
          simp [hlen]
    · have harr : arr.get? i = none := List.get?_eq_none.mpr (by omega)
      constructor
      · simp only [loadGo, harr, Except.isOk, Except.toBool, Bool.false_eq_true, false_iff]
        push_neg
        refine ⟨by simp, ?_⟩
        simp only [List.length_cons]
        omega
      · intro recs h
        simp only [loadGo, harr] at h
        exact (Except.noConfusion h)

/-- C3 counterexample: a persisted pair whose matrix has 2 rows but
whose metadata list has 1 entry is misaligned, yet `_load` constructs the
store without any error — refuting the claim that a differing row count
always makes initialization fail. -/
theorem c3_counterexample :
    ([[(0:ℚ)], [0]].length ≠ ([⟨"a", "t", ⟨none⟩⟩] : List MetaEntry).length) ∧
    (SimpleVectorStore.loadRecords [⟨"a", "t", ⟨none⟩⟩] [[(0:ℚ)], [0]]).isOk = true := by
  exact ⟨by decide, by decide⟩

/-- C3 amended: `SimpleVectorStore._load` performs no explicit
alignment check; it fails (with the `IndexError` raised when reading a
missing row) exactly when the matrix has fewer rows than metadata
entries, and otherwise silently constructs a store with one record per
metadata entry — even when the matrix has extra rows. -/
theorem c3_load_succeeds_iff_enough_rows (meta : List MetaEntry) (arr : List (List ℚ)) :
    ((SimpleVectorStore.loadRecords meta arr).isOk ↔ meta.length ≤ arr.length) ∧
    (∀ recs, SimpleVectorStore.loadRecords meta arr = .ok recs →
      recs.length = meta.length) := by
  have h := loadGo_spec arr meta 0
  constructor
  · rw [SimpleVectorStore.loadRecords, h.1]
    constructor
    · rintro (rfl | h2)
      · simp
      · omega
    · intro h2; right; omega
  · exact h.2

theorem c3_witness :
    (([] : List MetaEntry).length ≤ ([] : List (List ℚ)).length) ∧
    (SimpleVectorStore.loadRecords [] ([] : List (List ℚ))).isOk = true := by
  refine ⟨by decide, ?_⟩
  have h := (c3_load_succeeds_iff_enough_rows [] ([] : List (List ℚ))).1.mpr (by decide)
  simpa using h

theorem sorted_selection_spec (s : List ℚ) (idxs : List Nat) (topK : Nat)
    (f : Nat → VectorRecord × ℚ) (hf : ∀ i, (f i).2 = s.getD i 0)
    (hsorted : List.Pairwise (fun i j => s.getD j 0 ≤ s.getD i 0) idxs) :
    ((idxs.take topK).map f).length ≤ topK ∧
    List.Pairwise (fun p q : VectorRecord × ℚ => q.2 ≤ p.2)
      ((idxs.take topK).map f) := by
  have htake : List.Pairwise (fun i j => s.getD j 0 ≤ s.getD i 0) (idxs.take topK) :=
    hsorted.sublist (List.take_sublist topK idxs)
  constructor
  · simp only [List.length_map, List.length_take]
    omega
  · rw [List.pairwise_map]
    refine htake.imp ?_
    intro i j hij
    rw [hf i, hf j]
    exact hij

/-- C4 amended: for every stored corpus, every top_k and every argsort
implementation meeting numpy's documented contract (a sorted permutation
of the index range), both `SimpleVectorStore.search` and
`HybridIndex.hybrid_search` return at most top_k results sorted by
non-increasing score, and on an empty store/index they return the empty
list rather than an error. The order among equal scores is whatever the
argsort implementation emits: the default `quicksort` kind does not
guarantee insertion order (see the counterexample). -/
theorem c4_search_topk_sorted (argsortImpl : List ℚ → List Nat)
    (sim : List ℚ → List ℚ → ℚ) (store : SimpleVectorStore)
    (queryVec : List ℚ) (topK : Nat) (idx : HybridIndex) (query : List Char) (alpha : ℚ) :
    (ArgsortOk argsortImpl (store.searchSims sim queryVec) →
      (store.search argsortImpl sim queryVec topK).length ≤ topK ∧
      List.Pairwise (fun p q : VectorRecord × ℚ => q.2 ≤ p.2)
        (store.search argsortImpl sim queryVec topK)) ∧
    (store.vectors = [] → store.search argsortImpl sim queryVec topK = []) ∧
    (ArgsortOk argsortImpl (idx.hybridScores sim query queryVec alpha) →
      (idx.hybridSearch argsortImpl sim query queryVec alpha topK).length ≤ topK ∧
      List.Pairwise (fun p q : VectorRecord × ℚ => q.2 ≤ p.2)
        (idx.hybridSearch argsortImpl sim query queryVec alpha topK)) ∧
    (idx.records = [] → idx.hybridSearch argsortImpl sim query queryVec alpha topK = []) := by
  refine ⟨?_, ?_, ?_, ?_⟩
  · intro hok
    have hs := sorted_selection_spec (store.searchSims sim queryVec)
      (argsortImpl (store.searchSims sim queryVec)) topK
      (fun i => (store.vectors.getD i default,
        (store.searchSims sim queryVec).getD i 0)) (fun i => rfl) hok.2
    constructor
    · rw [SimpleVectorStore.search]
      split
      · simp
      · exact hs.1
    · rw [SimpleVectorStore.search]
      split
      · simp
      · exact hs.2
  · intro h
    simp [SimpleVectorStore.search, h]
  · intro hok
    have hh := sorted_selection_spec (idx.hybridScores sim query queryVec alpha)
      (argsortImpl (idx.hybridScores sim query queryVec alpha)) topK
      (fun i => (idx.records.getD i default,
        (idx.hybridScores sim query queryVec alpha).getD i 0)) (fun i => rfl) hok.2
    constructor
    · rw [HybridIndex.hybridSearch]
      split
      · simp
      · exact hh.1
    · rw [HybridIndex.hybridSearch]
      split
      · simp
      · exact hh.2
  · intro h
    simp [HybridIndex.hybridSearch, h]

/-- C4 counterexample: on a store of 17 identical records (all scores
tied, array longer than numpy's 16-element insertion-sort cutoff), the
traced output of numpy's default argsort kind satisfies the argsort
contract yet selects the records in the order
[0, 14, 13, 12, 11, 10, 9, 15, 8, 6, 5, 4, 3, 2, 1, 7, 16] — ties are
not broken by original insertion order, refuting the claim as stated. -/
theorem c4_counterexample :
    ArgsortOk npQuicksortTiedCex (tiedStore17.searchSims (fun _ _ => 0) [1]) ∧
    tiedStore17.searchIdxs npQuicksortTiedCex (fun _ _ => 0) [1] 17 =
      npQuicksortTiedPerm ∧
    ¬ List.Pairwise (rankRel (tiedStore17.searchSims (fun _ _ => 0) [1]))
      (tiedStore17.searchIdxs npQuicksortTiedCex (fun _ _ => 0) [1] 17) ∧
    tiedStore17.searchSims (fun _ _ => 0) [1] = List.replicate 17 0 := by
  refine ⟨by decide, by decide, by decide, by decide⟩

theorem c4_witness :
    (ArgsortOk (fun s => List.range s.length)
        ((SimpleVectorStore.mk [⟨"a", [2], "t", ⟨none⟩⟩,
          ⟨"b", [1], "t", ⟨none⟩⟩]).searchSims (fun _ v => v.getD 0 0) [1]) ∧
      ((SimpleVectorStore.mk [⟨"a", [2], "t", ⟨none⟩⟩, ⟨"b", [1], "t", ⟨none⟩⟩]).search
        (fun s => List.range s.length) (fun _ v => v.getD 0 0) [1] 1).length ≤ 1) ∧
    (SimpleVectorStore.mk []).search (fun s => List.range s.length)
      (fun _ _ => 0) [1] 5 = [] ∧
    (HybridIndex.mk [] none).hybridSearch (fun s => List.range s.length)
      (fun _ _ => 0) ['a'] [1] (1/2) 5 = [] := by
  refine ⟨⟨by decide, ?_⟩, ?_, ?_⟩
  · exact ((c4_search_topk_sorted (fun s => List.range s.length) (fun _ v => v.getD 0 0)
      (SimpleVectorStore.mk [⟨"a", [2], "t", ⟨none⟩⟩, ⟨"b", [1], "t", ⟨none⟩⟩]) [1] 1
      (HybridIndex.mk [] none) ['a'] (1/2)).1 (by decide)).1
  · exact (c4_search_topk_sorted (fun s => List.range s.length) (fun _ _ => 0)
      (SimpleVectorStore.mk []) [1] 5 (HybridIndex.mk [] none) ['a'] (1/2)).2.1 rfl
  · exact (c4_search_topk_sorted (fun s => List.range s.length) (fun _ _ => 0)
      (SimpleVectorStore.mk []) [1] 5 (HybridIndex.mk [] none) ['a'] (1/2)).2.2.2 rfl

/-- C5: if `HybridIndex.build` is given records none of which yield
any tokens, lexical scoring is disabled and, for every query, query
vector, alpha, top_k and argsort implementation, `hybrid_search` returns
exactly the pure dense ranking (the selection by descending dense score
with its scores, through the same argsort the code would run). -/
theorem c5_no_tokens_dense_only (argsortImpl : List ℚ → List Nat)
    (sim : List ℚ → List ℚ → ℚ)
    (bm25Ctor : List (List (List Char)) → Except Unit (List (List Char) → List ℚ))
    (records : List VectorRecord) (query : List Char) (queryVec : List ℚ)
    (alpha : ℚ) (topK : Nat)
    (h : ∀ r ∈ records, hybridTokenize r.text.toList = []) :
    (HybridIndex.build bm25Ctor records).hybridSearch argsortImpl sim query queryVec
        alpha topK =
      (HybridIndex.build bm25Ctor records).denseOnlyRanking argsortImpl sim
        queryVec topK := by
  have hcorp : (records.filterMap fun r =>
      let toks := if r.text.isEmpty then [] else hybridTokenize r.text.toList
      if toks.isEmpty then none else some toks) = [] := by
    rw [List.filterMap_eq_nil_iff]
    intro r hr
    have h' := h r hr
    simp only [String.toList] at h'
    by_cases ht : r.text.isEmpty <;> simp [ht, h']
  have hb : (HybridIndex.build bm25Ctor records).bm25 = none := by
    have hrw : (HybridIndex.build bm25Ctor records).bm25 =
        if (records.filterMap fun r =>
            let toks := if r.text.isEmpty then [] else hybridTokenize r.text.toList
            if toks.isEmpty then none else some toks).isEmpty then none
        else match bm25Ctor (records.filterMap fun r =>
            let toks := if r.text.isEmpty then [] else hybridTokenize r.text.toList
            if toks.isEmpty then none else some toks) with
          | .ok f => some f
          | .error _ => none := rfl
    rw [hrw, hcorp]
    rfl
  have hl : (HybridIndex.build bm25Ctor records).lexicalScores query = [] := by
    rw [HybridIndex.lexicalScores, hb]
    split <;> rfl
  rw [HybridIndex.hybridSearch, HybridIndex.denseOnlyRanking]
  split
  · rfl
  · rw [HybridIndex.hybridIdxs]
    have hsc : (HybridIndex.build bm25Ctor records).hybridScores sim query queryVec alpha =
        (HybridIndex.build bm25Ctor records).denseScores sim queryVec := by
      rw [HybridIndex.hybridScores, hl]
      simp
    rw [hsc]

theorem c5_witness :
    ((∀ r ∈ [VectorRecord.mk "r" [1] "" ⟨none⟩], hybridTokenize r.text.toList = []) ∧
      (HybridIndex.build cexCtor [VectorRecord.mk "r" [1] "" ⟨none⟩]).hybridSearch
        argsortDesc (fun _ _ => 0) ['a'] [1] (1/2) 5 =
      (HybridIndex.build cexCtor [VectorRecord.mk "r" [1] "" ⟨none⟩]).denseOnlyRanking
        argsortDesc (fun _ _ => 0) [1] 5) :=
  ⟨by decide, c5_no_tokens_dense_only argsortDesc (fun _ _ => 0) cexCtor
    [VectorRecord.mk "r" [1] "" ⟨none⟩] ['a'] [1] (1/2) 5 (by decide)⟩

theorem foldl_min_le (l : List ℚ) : ∀ a : ℚ, l.foldl min a ≤ a ∧ ∀ x ∈ l, l.foldl min a ≤ x := by
  induction l with
  | nil => intro a; exact ⟨le_refl _, by simp⟩
  | cons b l ih =>
    intro a
    constructor
    · exact le_trans (ih (min a b)).1 (min_le_left a b)
    · intro x hx
      rcases List.mem_cons.mp hx with rfl | hx
      · exact le_trans (ih (min a x)).1 (min_le_right a x)
      · exact (ih (min a b)).2 x hx

theorem foldl_max_le (l : List ℚ) : ∀ a : ℚ, a ≤ l.foldl max a ∧ ∀ x ∈ l, x ≤ l.foldl max a := by
  induction l with
  | nil => intro a; exact ⟨le_refl _, by simp⟩
  | cons b l ih =>
    intro a
    constructor
    · exact le_trans (le_max_left a b) (ih (max a b)).1
    · intro x hx
      rcases List.mem_cons.mp hx with rfl | hx
      · exact le_trans (le_max_right a x) (ih (max a x)).1
      · exact (ih (max a b)).2 x hx

theorem listMin_le_of_mem {l : List ℚ} {x : ℚ} (h : x ∈ l) : listMin l ≤ x := by
  cases l with
  | nil => cases h
  | cons a l =>
    rcases List.mem_cons.mp h with rfl | h
    · exact (foldl_min_le l x).1
    · exact (foldl_min_le l a).2 x h

theorem le_listMax_of_mem {l : List ℚ} {x : ℚ} (h : x ∈ l) : x ≤ listMax l := by
  cases l with
  | nil => cases h
  | cons a l =>
    rcases List.mem_cons.mp h with rfl | h
    · exact (foldl_max_le l x).1
    · exact (foldl_max_le l a).2 x h

theorem minmaxNorm_mem_bounds {s : List ℚ} {x : ℚ} (hx : x ∈ minmaxNorm s) :
    0 ≤ x ∧ x ≤ 1 := by
  obtain ⟨y, hy, rfl⟩ := List.mem_map.mp hx
  have h1 : listMin s ≤ y := listMin_le_of_mem hy
  have h2 : y ≤ listMax s := le_listMax_of_mem hy
  have hptp : 0 ≤ ptp s := by rw [ptp]; linarith
  have heps : (0:ℚ) < npEps := by norm_num [npEps]
  have hd : 0 < ptp s + npEps := by linarith
  constructor
  · exact div_nonneg (by linarith) (le_of_lt hd)
  · rw [div_le_one hd, ptp]
    linarith

/-- C6 amended: for every query against an index with lexical scoring
enabled, when the raw BM25 scores have strictly positive range the
min-max-normalised entries returned by `lexical_scores` all lie in
[0,1]; when the range is zero the raw scores are returned unchanged — so
they are all zero only when the raw scores themselves are all zero. -/
theorem c6_lexical_scores_unit_range (idx : HybridIndex) (query : List Char)
    (f : List (List Char) → List ℚ) (hb : idx.bm25 = some f)
    (hne : idx.records ≠ []) :
    (0 < ptp (f (hybridTokenize query)) →
      ∀ x ∈ idx.lexicalScores query, 0 ≤ x ∧ x ≤ 1) ∧
    (ptp (f (hybridTokenize query)) = 0 →
      idx.lexicalScores query = f (hybridTokenize query)) := by
  have hre : idx.records.isEmpty = false := by
    simpa [List.isEmpty_iff] using hne
  constructor
  · intro hp x hx
    simp only [HybridIndex.lexicalScores, hre, Bool.false_eq_true, if_false, hb] at hx
    have hne2 : ¬ (f (hybridTokenize query)).isEmpty = true := by
      intro hemp
      rw [List.isEmpty_iff] at hemp
      rw [hemp] at hp
      norm_num [ptp, listMax, listMin] at hp
    rw [if_pos ⟨hne2, hp⟩] at hx
    exact minmaxNorm_mem_bounds hx
  · intro hp
    simp only [HybridIndex.lexicalScores, hre, Bool.false_eq_true, if_false, hb]
    rw [if_neg]
    intro hcon
    rw [hp] at hcon
    exact absurd hcon.2 (by norm_num)

/-- C6 counterexample: on the two-record corpus whose BM25 scorer
gives both documents the same negative score, `lexical_scores` returns
those raw scores unchanged — the range is zero yet the returned scores
are neither zero nor in [0,1], refuting the claim as stated. -/
theorem c6_counterexample :
    (HybridIndex.build cexCtor cexRecords).bm25.isSome = true ∧
    (HybridIndex.build cexCtor cexRecords).lexicalScores ['a'] = [-(2:ℚ)/5, -(2:ℚ)/5] ∧
    ptp [-(2:ℚ)/5, -(2:ℚ)/5] = 0 ∧ ¬((0:ℚ) ≤ -(2:ℚ)/5) ∧ (-(2:ℚ)/5 ≠ (0:ℚ)) := by
  refine ⟨rfl, ?_, by norm_num [ptp, listMax, listMin], by norm_num, by norm_num⟩
  show (if ¬([-(2:ℚ)/5, -(2:ℚ)/5] : List ℚ).isEmpty ∧ 0 < ptp [-(2:ℚ)/5, -(2:ℚ)/5]
      then minmaxNorm [-(2:ℚ)/5, -(2:ℚ)/5] else [-(2:ℚ)/5, -(2:ℚ)/5]) = [-(2:ℚ)/5, -(2:ℚ)/5]
  norm_num [ptp, listMax, listMin]

theorem c6_witness :
    (ptp [(5:ℚ), 5] = 0) ∧
    (HybridIndex.mk cexRecords (some fun _ => [(5:ℚ), 5])).lexicalScores ['a'] = [(5:ℚ), 5] := by
  refine ⟨by norm_num [ptp, listMax, listMin], ?_⟩
  exact (c6_lexical_scores_unit_range (HybridIndex.mk cexRecords (some fun _ => [(5:ℚ), 5]))
    ['a'] (fun _ => [(5:ℚ), 5]) rfl (by decide)).2 (by norm_num [ptp, listMax, listMin])

theorem exceptIsOk_exists {ε α : Type} {x : Except ε α} (h : x.isOk = true) :
    ∃ v, x = .ok v := by
  cases x with
  | error e => simp [Except.isOk, Except.toBool] at h
  | ok v => exact ⟨v, rfl⟩

theorem runRounds_isOk (env : QAEnv) (s : LoopSettings) (uq : String)
    (htot : env.total) :
    ∀ fuel i q acc steps, (runRounds env s uq fuel i q acc steps).isOk = true := by
  obtain ⟨h1, h2, h3, h4⟩ := htot
  intro fuel
  induction fuel with
  | zero => intro i q acc steps; rfl
  | succ f ih =>
    intro i q acc steps
    obtain ⟨rj, hr⟩ := exceptIsOk_exists (h1 i q)
    obtain ⟨sj, hsel⟩ := exceptIsOk_exists (h2 i (rj.reformulated.getD q))
    obtain ⟨fj, hfil⟩ := exceptIsOk_exists (h3 i (rj.reformulated.getD q))
    obtain ⟨finj, hfin⟩ := exceptIsOk_exists (h4 i uq)
    simp only [runRounds, hr, hsel, hfil]
    split
    · simp [hfin, Except.isOk, Except.toBool]
    · exact ih _ _ _ _

theorem runRounds_props (env : QAEnv) (s : LoopSettings) (uq : String) :
    ∀ fuel i q acc steps stepsOut fa,
      fuel + i = s.iterative_max_loops → i < s.iterative_max_loops →
      countFinal steps = 0 → countReform steps = i →
      runRounds env s uq fuel i q acc steps = .ok (stepsOut, fa) →
      fa.isSome = true ∧ countFinal stepsOut = 1 ∧
      countReform stepsOut ≤ s.iterative_max_loops := by
  intro fuel
  induction fuel with
  | zero => intro i q acc steps stepsOut fa hfi hi _ _ _; omega
  | succ f ih =>
    intro i q acc steps stepsOut fa hfi hi hcf hcr hrun
    cases hr : env.reformulate i q with
    | error e =>
      simp only [runRounds, hr] at hrun
      exact Except.noConfusion hrun
    | ok rj =>
      simp only [runRounds, hr] at hrun
      cases hsel : env.selectDocs i (rj.reformulated.getD q) with
      | error e =>
        simp only [hsel] at hrun
        exact Except.noConfusion hrun
      | ok sj =>
        simp only [hsel] at hrun
        cases hfil : env.filterChunks i (rj.reformulated.getD q) with
        | error e =>
          simp only [hfil] at hrun
          exact Except.noConfusion hrun
        | ok fj =>
          simp only [hfil] at hrun
          by_cases hcond : (fj.answerable.getD false) = true ∨ i = s.iterative_max_loops - 1
          · rw [if_pos hcond] at hrun
            cases hfin : env.finalAnswer i uq with
            | error e =>
              simp only [hfin] at hrun
              exact Except.noConfusion hrun
            | ok finj =>
              simp only [hfin] at hrun
              cases Except.ok.inj hrun
              refine ⟨rfl, ?_, ?_⟩
              · simp [countFinal, List.countP_append, List.countP_cons] at hcf ⊢
                exact hcf
              · simp [countReform, List.countP_append, List.countP_cons] at hcr ⊢
                rw [hcr]
                omega
          · rw [if_neg hcond] at hrun
            push_neg at hcond
            refine ih (i + 1) _ _ _ stepsOut fa (by omega) (by omega) ?_ ?_ hrun
            · simp [countFinal, List.countP_append, List.countP_cons] at hcf ⊢
              exact hcf
            · simp [countReform, List.countP_append, List.countP_cons] at hcr ⊢
              rw [hcr]

/-- C2: for every environment whose model calls do not raise,
`QALoop.run` returns a trace; and every trace any environment's run
returns contains a final answer, records exactly one FinalAnswer step,
and records at most `iterative_max_loops` rounds (reformulate steps) —
a raising model call instead aborts the run with its error, never
yielding a trace without a final answer. -/
theorem c2_run_bounded_single_final (env : QAEnv) (s : LoopSettings) (tid q : String)
    (hml : 0 < s.iterative_max_loops) :
    (env.total → (QALoop.run env s tid q).isOk = true) ∧
    (∀ t, QALoop.run env s tid q = .ok t →
      t.final_answer.isSome = true ∧ countFinal t.steps = 1 ∧
      countReform t.steps ≤ s.iterative_max_loops) := by
  constructor
  · intro htot
    rw [QALoop.run]
    cases hrun : runRounds env s q s.iterative_max_loops 0 q [] [] with
    | error e =>
      have h := runRounds_isOk env s q htot s.iterative_max_loops 0 q [] []
      rw [hrun] at h
      simp [Except.isOk, Except.toBool] at h
    | ok p => rfl
  · intro t ht
    rw [QALoop.run] at ht
    cases hrun : runRounds env s q s.iterative_max_loops 0 q [] [] with
    | error e =>
      rw [hrun] at ht
      exact Except.noConfusion ht
    | ok p =>
      rw [hrun] at ht
      obtain ⟨stepsOut, fa⟩ := p
      have hp := runRounds_props env s q s.iterative_max_loops 0 q [] [] stepsOut fa
        (by omega) hml rfl rfl hrun
      cases Except.ok.inj ht
      exact hp

theorem c2_witness : (QALoop.run okEnv defaultLoopSettings "tid" "q").isOk = true :=
  (c2_run_bounded_single_final okEnv defaultLoopSettings "tid" "q" (by decide)).1
    ⟨fun i q => rfl, fun i q => rfl, fun i q => rfl, fun i q => rfl⟩

theorem noWrite_append (a b : List LoopEffect) :
    noWrite (a ++ b) = (noWrite a && noWrite b) := by
  simp [noWrite, List.all_append]

theorem runWERounds_no_write (env : QAEnv) (s : LoopSettings) (uq : String) :
    ∀ fuel i q acc steps effs, noWrite effs = true →
      noWrite (runWERounds env s uq fuel i q acc steps effs).2 = true := by
  intro fuel
  induction fuel with
  | zero => intro i q acc steps effs h; exact h
  | succ f ih =>
    intro i q acc steps effs h
    have h1 : noWrite (effs ++ [.progressEvt "reformulate" i]) = true := by
      simp only [noWrite_append, h]
      rfl
    cases hr : env.reformulate i q with
    | error e => simp only [runWERounds, hr]; exact h1
    | ok rj =>
      simp only [runWERounds, hr]
      have h2 : noWrite (effs ++ [.progressEvt "reformulate" i] ++
          [.progressEvt "retrieve_docs" i]) = true := by
        simp only [noWrite_append, h]
        rfl
      cases hsel : env.selectDocs i (rj.reformulated.getD q) with
      | error e => simp only [hsel]; exact h2
      | ok sj =>
        simp only [hsel]
        have h3 : noWrite (effs ++ [.progressEvt "reformulate" i] ++
            [.progressEvt "retrieve_docs" i] ++ [.progressEvt "retrieve_chunks" i] ++
            [.progressEvt "filter_chunks" i]) = true := by
          simp only [noWrite_append, h]
          rfl
        cases hfil : env.filterChunks i (rj.reformulated.getD q) with
        | error e => simp only [hfil]; exact h3
        | ok fj =>
          simp only [hfil]
          split
          · have h4 : noWrite (effs ++ [.progressEvt "reformulate" i] ++
                [.progressEvt "retrieve_docs" i] ++ [.progressEvt "retrieve_chunks" i] ++
                [.progressEvt "filter_chunks" i] ++ [.progressEvt "final_answer" i]) = true := by
              simp only [noWrite_append, h]
              rfl
            cases hfin : env.finalAnswer i uq with
            | error e => simp only [hfin]; exact h4
            | ok finj => simp only [hfin]; exact h4
          · exact ih _ _ _ _ _ h3

/-- C8: if a model call fails during a run, no trace file is written:
`run_with_events` aborts carrying only the logger events emitted so far,
none of which is a trace write (the write happens only after the loop
completes), and the synchronous `/question` path writes nothing when
`QALoop.run` aborts. -/
theorem c8_no_trace_persisted_on_failure (env : QAEnv) (s : LoopSettings)
    (tid q : String) :
    (∀ e effs, QALoop.runWithEvents env s tid q = (.error e, effs) →
      noWrite effs = true) ∧
    (∀ e, QALoop.run env s tid q = .error e →
      (askEndpoint env s tid q).2 = []) := by
  constructor
  · intro e effs heq
    rw [QALoop.runWithEvents] at heq
    cases hrun : runWERounds env s q s.iterative_max_loops 0 q [] []
        [.infoEvt "loop_start"] with
    | mk res effs2 =>
      rw [hrun] at heq
      have hnw : noWrite effs2 = true := by
        have := runWERounds_no_write env s q s.iterative_max_loops 0 q [] []
          [.infoEvt "loop_start"] (by rfl)
        rw [hrun] at this
        exact this
      cases res with
      | error e2 =>
        simp only [Prod.mk.injEq] at heq
        rw [← heq.2]
        exact hnw
      | ok v =>
        simp only [Prod.mk.injEq] at heq
        exact absurd heq.1 (by simp)
  · intro e heq
    rw [askEndpoint, heq]

theorem c8_witness :
    noWrite (QALoop.runWithEvents failEnv defaultLoopSettings "tid" "q").2 = true ∧
    (askEndpoint failEnv defaultLoopSettings "tid" "q").2 = [] := by
  constructor
  · exact (c8_no_trace_persisted_on_failure failEnv defaultLoopSettings "tid" "q").1
      ⟨"boom"⟩ (QALoop.runWithEvents failEnv defaultLoopSettings "tid" "q").2 rfl
  · exact (c8_no_trace_persisted_on_failure failEnv defaultLoopSettings "tid" "q").2
      ⟨"boom"⟩ rfl
